import Mathlib

/-
Shallow embedding of the repository's topology generator
(src/generate_topology.py) and topology validator (src/validate_topology.py),
together with theorems about the properties the scripts are meant to have.

Python dictionaries keyed by strings are modelled as functions
String → Option Nat (or association lists where insertion order matters),
Python lists as Lean lists, and the scripts' fallible operations
(random.choice on an empty list, random.sample with too small a population)
as Except-valued functions.  Randomness is modelled by an explicit stream of
natural numbers consumed by choice/sample.
-/

/-! ### Decimal rendering of naturals (Python str / f-string formatting) -/

/-- Fueled decimal rendering: digit characters of a natural number,
most significant first.  The fuel argument only serves structural
termination; it is always called with enough fuel. -/
def toDecAux : Nat → Nat → List Char
  | 0, _ => []
  | fuel + 1, n =>
    if n < 10 then [Char.ofNat (48 + n)]
    else toDecAux fuel (n / 10) ++ [Char.ofNat (48 + n % 10)]

/-- Decimal digit characters of a natural number (Python str(n)). -/
def toDec (n : Nat) : List Char := toDecAux (n + 1) n

/-- Value of a list of decimal digit characters (Python int of a digit string). -/
def decVal (l : List Char) : Nat :=
  l.foldl (fun a c => 10 * a + (c.toNat - 48)) 0

/-- String form of a natural number as Python formats it. -/
def natStr (n : Nat) : String := ⟨toDec n⟩

lemma charDigit_toNat {d : Nat} (h : d < 10) :
    (Char.ofNat (48 + d)).toNat = 48 + d := by
  interval_cases d <;> decide

lemma charDigit_isDigit {d : Nat} (h : d < 10) :
    (Char.ofNat (48 + d)).isDigit = true := by
  interval_cases d <;> decide

lemma charDigit_ne_dash {d : Nat} (h : d < 10) :
    Char.ofNat (48 + d) ≠ '-' := by
  interval_cases d <;> decide

lemma toDecAux_ne_nil {fuel n : Nat} (h : n < fuel) :
    toDecAux fuel n ≠ [] := by
  cases fuel with
  | zero => omega
  | succ f =>
    unfold toDecAux
    split
    · simp
    · simp

lemma toDec_ne_nil (n : Nat) : toDec n ≠ [] := toDecAux_ne_nil (by omega)

lemma toDecAux_isDigit {fuel : Nat} : ∀ {n : Nat}, n < fuel →
    ∀ c ∈ toDecAux fuel n, c.isDigit = true := by
  induction fuel with
  | zero => intro n h; omega
  | succ f ih =>
    intro n h c hc
    unfold toDecAux at hc
    split at hc
    · rename_i h10
      simp only [List.mem_singleton] at hc
      subst hc; exact charDigit_isDigit h10
    · rename_i h10
      rcases List.mem_append.mp hc with h1 | h1
      · exact ih (by omega) c h1
      · simp only [List.mem_singleton] at h1
        subst h1; exact charDigit_isDigit (Nat.mod_lt _ (by omega))

lemma toDec_isDigit (n : Nat) : ∀ c ∈ toDec n, c.isDigit = true :=
  toDecAux_isDigit (by omega)

lemma toDec_ne_dash (n : Nat) : ∀ c ∈ toDec n, c ≠ '-' := by
  intro c hc
  have := toDec_isDigit n c hc
  intro h; subst h; simp at this

lemma decVal_append_single (l : List Char) (c : Char) :
    decVal (l ++ [c]) = 10 * decVal l + (c.toNat - 48) := by
  unfold decVal
  rw [List.foldl_append]
  rfl

lemma toDecAux_val {fuel : Nat} : ∀ {n : Nat}, n < fuel →
    decVal (toDecAux fuel n) = n := by
  induction fuel with
  | zero => intro n h; omega
  | succ f ih =>
    intro n h
    unfold toDecAux
    split
    · rename_i h10
      show decVal [Char.ofNat (48 + n)] = n
      unfold decVal
      simp [charDigit_toNat h10]
    · rename_i h10
      rw [decVal_append_single, ih (by omega),
        charDigit_toNat (Nat.mod_lt _ (by omega))]
      omega

lemma toDec_val (n : Nat) : decVal (toDec n) = n := toDecAux_val (by omega)

lemma toDec_injective {m n : Nat} (h : toDec m = toDec n) : m = n := by
  have h1 := toDec_val m
  rw [h, toDec_val] at h1
  omega

/-! ### Node identifiers (generate_topology.py, create_node) -/

/-- Lower-casing of a string (Python str.lower), character by character. -/
def lowerStr (s : String) : String := ⟨s.data.map Char.toLower⟩

/-- Identifier built by create_node: lower-cased group tag, "-r", index. -/
def mkNodeId (country : String) (idx : Nat) : String :=
  lowerStr country ++ "-r" ++ natStr idx

lemma string_data_inj {a b : String} (h : a.data = b.data) : a = b := by
  cases a; cases b; simp_all

/-- Splitting a separator-framed concatenation: if the digit blocks contain no
dash then the prefix before the "-r" separator is determined. -/
lemma append_sep_inj :
    ∀ (a b d1 d2 : List Char), (∀ c ∈ d1, c ≠ '-') → (∀ c ∈ d2, c ≠ '-') →
    a ++ '-' :: 'r' :: d1 = b ++ '-' :: 'r' :: d2 → a = b ∧ d1 = d2 := by
  intro a
  induction a with
  | nil =>
    intro b d1 d2 h1 h2 h
    cases b with
    | nil => simpa using h
    | cons x b2 =>
      simp only [List.nil_append, List.cons_append, List.cons.injEq] at h
      obtain ⟨hx, h⟩ := h
      cases b2 with
      | nil =>
        simp only [List.nil_append, List.cons.injEq] at h
        exact absurd h.1.symm (by decide)
      | cons y b3 =>
        simp only [List.cons_append, List.cons.injEq] at h
        obtain ⟨hy, h⟩ := h
        exfalso
        exact h1 '-' (h ▸ List.mem_append_right b3 (List.mem_cons_self _ _)) rfl
  | cons x a2 ih =>
    intro b d1 d2 h1 h2 h
    cases b with
    | nil =>
      simp only [List.nil_append, List.cons_append, List.cons.injEq] at h
      obtain ⟨hx, h⟩ := h
      cases a2 with
      | nil =>
        simp only [List.nil_append, List.cons.injEq] at h
        exact absurd h.1 (by decide)
      | cons y a3 =>
        simp only [List.cons_append, List.cons.injEq] at h
        obtain ⟨hy, h⟩ := h
        exfalso
        exact h2 '-' (h.symm ▸ List.mem_append_right a3 (List.mem_cons_self _ _)) rfl
    | cons y b2 =>
      simp only [List.cons_append, List.cons.injEq] at h
      obtain ⟨hxy, h⟩ := h
      obtain ⟨hab, hd⟩ := ih b2 d1 d2 h1 h2 h
      exact ⟨by rw [hxy, hab], hd⟩

lemma mkNodeId_inj {t1 t2 : String} {i j : Nat}
    (h : mkNodeId t1 i = mkNodeId t2 j) : lowerStr t1 = lowerStr t2 ∧ i = j := by
  have hd : (lowerStr t1).data ++ '-' :: 'r' :: toDec i
      = (lowerStr t2).data ++ '-' :: 'r' :: toDec j := by
    have := congrArg String.data h
    simpa [mkNodeId, natStr, String.data_append] using this
  obtain ⟨ha, hb⟩ := append_sep_inj _ _ _ _ (toDec_ne_dash i) (toDec_ne_dash j) hd
  exact ⟨string_data_inj ha, toDec_injective hb⟩

/-! ### Data model (JSON topology document) -/

/-- A capacity descriptor attached to each link endpoint. -/
structure Capacity where
  speed : String
  is_bundle : Bool
  total_capacity_mbps : Nat
deriving DecidableEq, Repr

/-- Traffic counters attached to each link. -/
structure Traffic where
  forward_traffic_mbps : Nat
  forward_utilization_pct : Nat
  reverse_traffic_mbps : Nat
  reverse_utilization_pct : Nat
deriving DecidableEq, Repr

/-- A router node of the topology document.  The neighbor_count field is
absent (none) until the validator writes it. -/
structure Node where
  id : String
  name : String
  hostname : String
  loopback_ip : String
  country : String
  is_active : Bool
  node_type : String
  neighbor_count : Option Nat
deriving DecidableEq, Repr

/-- All fields of a node except the derived neighbor_count. -/
structure NodeCore where
  id : String
  name : String
  hostname : String
  loopback_ip : String
  country : String
  is_active : Bool
  node_type : String
deriving DecidableEq, Repr

/-- Projection of a node onto its non-derived fields. -/
def Node.core (n : Node) : NodeCore :=
  ⟨n.id, n.name, n.hostname, n.loopback_ip, n.country, n.is_active, n.node_type⟩

/-- A link of the topology document.  Source and target are node id
references. -/
structure Link where
  source : String
  target : String
  source_interface : String
  target_interface : String
  forward_cost : Nat
  reverse_cost : Nat
  cost : Nat
  status : String
  edge_type : String
  is_asymmetric : Bool
  source_capacity : Capacity
  target_capacity : Capacity
  traffic : Traffic
deriving DecidableEq, Repr

/-- Document metadata (summary counters, description, timestamp). -/
structure Metadata where
  node_count : Nat
  edge_count : Nat
  description : String
  export_timestamp : String
deriving DecidableEq, Repr

/-- The whole topology document. -/
structure Document where
  nodes : List Node
  links : List Link
  metadata : Metadata
deriving DecidableEq, Repr

/-! ### Topology validator (src/validate_topology.py) -/

/-- Initialisation of the neighbor_counts dictionary: zero for every node id
present in the document, absent otherwise. -/
def initCounts (nodes : List Node) : String → Option Nat :=
  fun i => if i ∈ nodes.map Node.id then some 0 else none

/-- One conditional increment of the neighbor_counts dictionary: the count of
key j is incremented only when j is already present. -/
def bump (m : String → Option Nat) (j : String) : String → Option Nat :=
  fun x => if x = j then (m j).map (· + 1) else m x

/-- The validator's loop over links, incrementing the source and then the
target endpoint of every link. -/
def countLoop (m : String → Option Nat) (links : List Link) : String → Option Nat :=
  links.foldl (fun acc l => bump (bump acc l.source) l.target) m

/-- The computed neighbor_counts dictionary. -/
def neighborCounts (nodes : List Node) (links : List Link) : String → Option Nat :=
  countLoop (initCounts nodes) links

/-- Number of link endpoints (source or target occurrences) whose id is i.
A link whose source and target are both i contributes two. -/
def endpointCount : List Link → String → Nat
  | [], _ => 0
  | l :: ls, i =>
    (if l.source = i then 1 else 0) + ((if l.target = i then 1 else 0) + endpointCount ls i)

/-- The validator's write-back of neighbor counts onto the node list. -/
def setCounts (nodes : List Node) (links : List Link) : List Node :=
  nodes.map (fun n => { n with neighbor_count := some ((neighborCounts nodes links n.id).getD 0) })

/-- The whole mutating effect of the validator on the persisted document:
every node's neighbor_count is recomputed from the links, everything else is
left as loaded. -/
def validate (d : Document) : Document :=
  { d with nodes := setCounts d.nodes d.links }

lemma bump_at (m : String → Option Nat) (j i : String) :
    bump m j i = if i = j then (m i).map (· + 1) else m i := by
  unfold bump
  by_cases h : i = j
  · subst h; simp
  · simp [h]

lemma countLoop_at (links : List Link) :
    ∀ (m : String → Option Nat) (i : String) (k : Nat), m i = some k →
    countLoop m links i = some (k + endpointCount links i) := by
  induction links with
  | nil => intro m i k h; simpa [countLoop, endpointCount] using h
  | cons l ls ih =>
    intro m i k h
    show countLoop (bump (bump m l.source) l.target) ls i = _
    have he : endpointCount (l :: ls) i
        = (if l.source = i then 1 else 0)
          + ((if l.target = i then 1 else 0) + endpointCount ls i) := rfl
    by_cases hs : i = l.source
    · by_cases ht : i = l.target
      · have hv : (bump (bump m l.source) l.target) i = some (k + 2) := by
          rw [bump_at, if_pos ht, bump_at, if_pos hs, h]; rfl
        rw [ih _ _ _ hv, he, if_pos hs.symm, if_pos ht.symm]
        congr 1
        omega
      · have hv : (bump (bump m l.source) l.target) i = some (k + 1) := by
          rw [bump_at, if_neg ht, bump_at, if_pos hs, h]; rfl
        rw [ih _ _ _ hv, he, if_pos hs.symm, if_neg (fun hh => ht hh.symm)]
        congr 1
        omega
    · by_cases ht : i = l.target
      · have hv : (bump (bump m l.source) l.target) i = some (k + 1) := by
          rw [bump_at, if_pos ht, bump_at, if_neg hs, h]; rfl
        rw [ih _ _ _ hv, he, if_neg (fun hh => hs hh.symm), if_pos ht.symm]
        congr 1
        omega
      · have hv : (bump (bump m l.source) l.target) i = some k := by
          rw [bump_at, if_neg ht, bump_at, if_neg hs, h]
        rw [ih _ _ _ hv, he, if_neg (fun hh => hs hh.symm), if_neg (fun hh => ht hh.symm)]
        congr 1
        omega

lemma neighborCounts_mem (nodes : List Node) (links : List Link) {n : Node}
    (h : n ∈ nodes) :
    neighborCounts nodes links n.id = some (endpointCount links n.id) := by
  have h0 : initCounts nodes n.id = some 0 := by
    unfold initCounts
    rw [if_pos (List.mem_map_of_mem Node.id h)]
  have := countLoop_at links (initCounts nodes) n.id 0 h0
  simpa [neighborCounts] using this

lemma setCounts_eq_map (nodes : List Node) (links : List Link) :
    setCounts nodes links
      = nodes.map (fun n => { n with neighbor_count := some (endpointCount links n.id) }) := by
  unfold setCounts
  apply List.map_congr_left
  intro n hn
  rw [neighborCounts_mem nodes links hn]
  rfl

lemma setCounts_idem (nodes : List Node) (links : List Link) :
    setCounts (setCounts nodes links) links = setCounts nodes links := by
  rw [setCounts_eq_map, setCounts_eq_map, List.map_map]
  rfl

/-- A document exercising the validator: one node with a self-loop link. -/
def docW : Document :=
  { nodes := [⟨"x", "x", "x", "172.16.1.1", "ZZZ", true, "router", none⟩],
    links := [⟨"x", "x", "GigabitEthernet0/0/0/1", "GigabitEthernet0/0/0/2",
      10, 10, 10, "up", "backbone", false,
      ⟨"1G", false, 1000⟩, ⟨"1G", false, 1000⟩, ⟨0, 0, 0, 0⟩⟩],
    metadata := ⟨1, 1, "d", "t"⟩ }

/-- C1: after the Validator runs, every node in the document has a
neighbor_count field equal to the number of link endpoints (source or target
occurrences) referencing that node's id; a link whose source and target are
both that node's id contributes two to the count. -/
theorem c1_neighbor_count_correct (d : Document) (n : Node)
    (h : n ∈ (validate d).nodes) :
    n.neighbor_count = some (endpointCount d.links n.id) := by
  have h2 : n ∈ setCounts d.nodes d.links := h
  rw [setCounts_eq_map] at h2
  obtain ⟨m, hm, rfl⟩ := List.mem_map.mp h2
  rfl

/-- Witness for C1 on a concrete document: the self-loop endpoint is counted
twice. -/
theorem c1_neighbor_count_correct_witness :
    (⟨"x", "x", "x", "172.16.1.1", "ZZZ", true, "router", some 2⟩ : Node).neighbor_count
      = some (endpointCount docW.links "x") :=
  c1_neighbor_count_correct docW _ (by decide)

/-- C6: running the Validator twice in succession on its own output yields
the same persisted document, in particular identical neighbor_count values
for every node both times. -/
theorem c6_validate_idempotent (d : Document) :
    validate (validate d) = validate d := by
  have h := setCounts_idem d.nodes d.links
  show Document.mk (setCounts (setCounts d.nodes d.links) d.links) d.links d.metadata
      = Document.mk (setCounts d.nodes d.links) d.links d.metadata
  rw [h]

/-- C7: the Validator overwrites every node's neighbor_count field, changes
no other node field, leaves the links sequence exactly as loaded and keeps
the metadata untouched. -/
theorem c7_validator_frame (d : Document) :
    (validate d).links = d.links
    ∧ (validate d).metadata = d.metadata
    ∧ (validate d).nodes.map Node.core = d.nodes.map Node.core
    ∧ (validate d).nodes.map Node.neighbor_count
        = d.nodes.map (fun n => some (endpointCount d.links n.id)) := by
  refine ⟨rfl, rfl, ?_, ?_⟩
  · show (setCounts d.nodes d.links).map Node.core = _
    rw [setCounts_eq_map, List.map_map]
    rfl
  · show (setCounts d.nodes d.links).map Node.neighbor_count = _
    rw [setCounts_eq_map, List.map_map]
    rfl

/-! ### Interface allocator (generate_topology.py, interface scan and
get_next_interface) -/

/-- Extraction of the trailing interface index: the integer matched by the
pattern slash-digits-at-end of the interface string, else 0. -/
def get_interface_index (s : String) : Nat :=
  if (s.data.reverse.takeWhile Char.isDigit) = [] then 0
  else
    match (s.data.reverse.drop (s.data.reverse.takeWhile Char.isDigit).length).head? with
    | some c => if c = '/' then decVal (s.data.reverse.takeWhile Char.isDigit).reverse else 0
    | none => 0

/-- One dictionary update of the interface scan: keep the max when the key is
present, store the index when it is absent. -/
def scanUpd (m : String → Option Nat) (i : String) (v : Nat) : String → Option Nat :=
  fun x => if x = i then
      match m i with
      | some old => some (Nat.max old v)
      | none => some v
    else m x

/-- Processing of one existing link by the scan: source endpoint first, then
target endpoint. -/
def scanLink (m : String → Option Nat) (l : Link) : String → Option Nat :=
  scanUpd (scanUpd m l.source (get_interface_index l.source_interface))
    l.target (get_interface_index l.target_interface)

/-- Counter initialisation: zero for every existing node id. -/
def initCounters (nodes : List Node) : String → Option Nat :=
  fun i => if i ∈ nodes.map Node.id then some 0 else none

/-- The interface_counters dictionary after the initial scan of existing
links. -/
def interface_counters (nodes : List Node) (links : List Link) : String → Option Nat :=
  links.foldl scanLink (initCounters nodes)

/-- Allocation of the next interface for a node: insert 0 when absent,
increment, and format the interface name from the new counter value. -/
def get_next_interface (m : String → Option Nat) (node_id : String) :
    (String → Option Nat) × String :=
  ((fun x => if x = node_id then some ((m node_id).getD 0 + 1) else m x),
    "GigabitEthernet0/0/0/" ++ natStr ((m node_id).getD 0 + 1))

/-- A run of allocation requests against the counters, returning the
(owning-node-id, interface-name) pairs handed out in order. -/
def allocRun : (String → Option Nat) → List String → List (String × String)
  | _, [] => []
  | m, i :: rest =>
    (i, (get_next_interface m i).2) :: allocRun (get_next_interface m i).1 rest

/-- The interface indices found for node id i while scanning the existing
links. -/
def scannedIndices : List Link → String → List Nat
  | [], _ => []
  | l :: ls, i =>
    (if l.source = i then [get_interface_index l.source_interface] else [])
    ++ (if l.target = i then [get_interface_index l.target_interface] else [])
    ++ scannedIndices ls i

lemma takeWhile_append_all {p : Char → Bool} :
    ∀ {l1 l2 : List Char}, (∀ c ∈ l1, p c = true) →
    (l1 ++ l2).takeWhile p = l1 ++ l2.takeWhile p := by
  intro l1
  induction l1 with
  | nil => intro l2 h; simp
  | cons x xs ih =>
    intro l2 h
    have hx : p x = true := h x (List.mem_cons_self _ _)
    simp only [List.cons_append, List.takeWhile_cons, hx, if_true]
    rw [ih (fun c hc => h c (List.mem_cons_of_mem _ hc))]

lemma interface_name_data (v : Nat) :
    ("GigabitEthernet0/0/0/" ++ natStr v).data.reverse
      = (toDec v).reverse ++ "GigabitEthernet0/0/0/".data.reverse := by
  show (String.data ("GigabitEthernet0/0/0/" ++ natStr v)).reverse = _
  rw [String.data_append]
  rw [List.reverse_append]
  rfl

lemma interface_name_digits (v : Nat) :
    ("GigabitEthernet0/0/0/" ++ natStr v).data.reverse.takeWhile Char.isDigit
      = (toDec v).reverse := by
  rw [interface_name_data,
    takeWhile_append_all (fun c hc => toDec_isDigit v c (List.mem_reverse.mp hc))]
  have h2 : "GigabitEthernet0/0/0/".data.reverse.takeWhile Char.isDigit = [] := by decide
  rw [h2, List.append_nil]

/-- The scan's index extraction inverts the allocator's name formatting. -/
lemma get_interface_index_name (v : Nat) :
    get_interface_index ("GigabitEthernet0/0/0/" ++ natStr v) = v := by
  unfold get_interface_index
  rw [interface_name_digits, interface_name_data]
  rw [if_neg (by simpa using toDec_ne_nil v)]
  rw [List.length_reverse, ← List.length_reverse (toDec v), List.drop_left]
  have hh : ("GigabitEthernet0/0/0/".data.reverse).head? = some '/' := by decide
  rw [hh]
  show (if ('/' : Char) = '/' then decVal (toDec v).reverse.reverse else 0) = v
  rw [if_pos rfl, List.reverse_reverse, toDec_val]

lemma interface_name_inj {v w : Nat}
    (h : "GigabitEthernet0/0/0/" ++ natStr v = "GigabitEthernet0/0/0/" ++ natStr w) :
    v = w := by
  have h1 := get_interface_index_name v
  rw [h, get_interface_index_name] at h1
  omega

lemma scanUpd_getD_le (m : String → Option Nat) (i : String) (v : Nat) (x : String) :
    (m x).getD 0 ≤ ((scanUpd m i v) x).getD 0 := by
  unfold scanUpd
  by_cases hx : x = i
  · subst hx
    rw [if_pos rfl]
    cases hm : m x with
    | none => simp [hm]
    | some old => simp [hm, Nat.le_max_left]
  · rw [if_neg hx]

lemma scanUpd_getD_self (m : String → Option Nat) (i : String) (v : Nat) :
    v ≤ ((scanUpd m i v) i).getD 0 := by
  unfold scanUpd
  rw [if_pos rfl]
  cases hm : m i with
  | none => simp
  | some old => simp [Nat.le_max_right]

lemma foldl_scanLink_getD_le (links : List Link) :
    ∀ (m : String → Option Nat) (x : String),
    (m x).getD 0 ≤ ((links.foldl scanLink m) x).getD 0 := by
  induction links with
  | nil => intro m x; exact Nat.le_refl _
  | cons l ls ih =>
    intro m x
    show (m x).getD 0 ≤ ((ls.foldl scanLink (scanLink m l)) x).getD 0
    calc (m x).getD 0
        ≤ ((scanLink m l) x).getD 0 := by
          unfold scanLink
          exact Nat.le_trans (scanUpd_getD_le m _ _ x) (scanUpd_getD_le _ _ _ x)
      _ ≤ _ := ih _ x

/-- Every interface index found during the scan is bounded by the final
counter value of its node. -/
lemma scanned_le_counter (links : List Link) :
    ∀ (m : String → Option Nat) (i : String) (v : Nat),
    v ∈ scannedIndices links i → v ≤ ((links.foldl scanLink m) i).getD 0 := by
  induction links with
  | nil => intro m i v hv; simp [scannedIndices] at hv
  | cons l ls ih =>
    intro m i v hv
    show v ≤ ((ls.foldl scanLink (scanLink m l)) i).getD 0
    unfold scannedIndices at hv
    rcases List.mem_append.mp hv with hv1 | hv2
    · rcases List.mem_append.mp hv1 with hs | ht
      · have hle : v ≤ ((scanLink m l) i).getD 0 := by
          by_cases hc : l.source = i
          · rw [if_pos hc] at hs
            simp only [List.mem_singleton] at hs
            subst hs
            unfold scanLink
            calc get_interface_index l.source_interface
                ≤ ((scanUpd m l.source (get_interface_index l.source_interface)) i).getD 0 := by
                  rw [← hc]
                  exact scanUpd_getD_self m _ _
              _ ≤ _ := scanUpd_getD_le _ _ _ i
          · rw [if_neg hc] at hs
            simp at hs
        exact Nat.le_trans hle (foldl_scanLink_getD_le ls _ i)
      · have hle : v ≤ ((scanLink m l) i).getD 0 := by
          by_cases hc : l.target = i
          · rw [if_pos hc] at ht
            simp only [List.mem_singleton] at ht
            subst ht
            unfold scanLink
            rw [← hc]
            exact scanUpd_getD_self _ _ _
          · rw [if_neg hc] at ht
            simp at ht
        exact Nat.le_trans hle (foldl_scanLink_getD_le ls _ i)
    · exact ih _ i v hv2

lemma get_next_interface_fst_ne (m : String → Option Nat) (j i : String) (h : i ≠ j) :
    (get_next_interface m j).1 i = m i := by
  unfold get_next_interface
  simp [h]

lemma get_next_interface_fst_self (m : String → Option Nat) (i : String) :
    (get_next_interface m i).1 i = some ((m i).getD 0 + 1) := by
  unfold get_next_interface
  simp

/-- Shape of the allocations handed to one node during a run: consecutive
indices starting just above the node's counter value. -/
lemma allocRun_filter :
    ∀ (reqs : List String) (m : String → Option Nat) (i : String),
    (allocRun m reqs).filter (fun p => p.1 == i)
      = (List.range (reqs.count i)).map
          (fun k => (i, "GigabitEthernet0/0/0/" ++ natStr ((m i).getD 0 + (k + 1)))) := by
  intro reqs
  induction reqs with
  | nil => intro m i; simp [allocRun]
  | cons j rest ih =>
    intro m i
    by_cases hj : j = i
    · subst hj
      show ((j, (get_next_interface m j).2) :: allocRun (get_next_interface m j).1 rest).filter
          (fun p => p.1 == j) = _
      rw [List.filter_cons]
      simp only [beq_self_eq_true, if_true]
      rw [ih _ j]
      have hcount : (j :: rest).count j = rest.count j + 1 := by
        rw [List.count_cons]
        simp
      rw [hcount, List.range_succ_eq_map, List.map_cons, List.map_map]
      have hself := get_next_interface_fst_self m j
      rw [List.cons.injEq]
      refine ⟨rfl, ?_⟩
      · apply List.map_congr_left
        intro k hk
        show (j, "GigabitEthernet0/0/0/"
            ++ natStr (((get_next_interface m j).1 j).getD 0 + (k + 1))) = _
        rw [hself]
        show (j, "GigabitEthernet0/0/0/" ++ natStr ((m j).getD 0 + 1 + (k + 1))) = _
        have harith : (m j).getD 0 + 1 + (k + 1) = (m j).getD 0 + (k + 1 + 1) := by omega
        rw [harith]
        rfl
    · show ((j, (get_next_interface m j).2) :: allocRun (get_next_interface m j).1 rest).filter
          (fun p => p.1 == i) = _
      rw [List.filter_cons]
      have hbeq : ((j, (get_next_interface m j).2).1 == i) = false := by
        simp [hj]
      rw [hbeq]
      simp only [Bool.false_eq_true, if_false]
      rw [ih _ i, get_next_interface_fst_ne m j i (fun hh => hj hh.symm)]
      have hcount : (j :: rest).count i = rest.count i := by
        rw [List.count_cons]
        simp
        exact hj
      rw [hcount]

/-- The allocator guarantee for one node: within a run, the interface
indices handed to that node strictly increase, each one is strictly above
every index found during the initial scan, and the
(owning-node-id, interface-name) pairs are pairwise distinct. -/
def allocGuarantee (nodes : List Node) (links : List Link)
    (reqs : List String) (i : String) : Prop :=
  ((allocRun (interface_counters nodes links) reqs).filter (fun p => p.1 == i)).Pairwise
      (fun p q => get_interface_index p.2 < get_interface_index q.2)
  ∧ (∀ v ∈ scannedIndices links i,
      ∀ p ∈ (allocRun (interface_counters nodes links) reqs).filter (fun p => p.1 == i),
      v < get_interface_index p.2)
  ∧ ((allocRun (interface_counters nodes links) reqs).filter (fun p => p.1 == i)).Nodup

/-- C2: for every node, the interface indices handed out during a run are
strictly increasing and strictly greater than every index recovered from the
initial scan of existing links for that node; hence the allocated
(owning-node-id, interface-name) pairs are pairwise distinct and distinct
from every interface index found during the scan. -/
theorem c2_interface_allocation (nodes : List Node) (links : List Link)
    (reqs : List String) (i : String) : allocGuarantee nodes links reqs i := by
  unfold allocGuarantee
  rw [allocRun_filter]
  refine ⟨?_, ?_, ?_⟩
  · rw [List.pairwise_map]
    refine List.Pairwise.imp ?_ (List.pairwise_lt_range _)
    intro a b hab
    rw [get_interface_index_name, get_interface_index_name]
    omega
  · intro v hv p hp
    obtain ⟨k, hk, rfl⟩ := List.mem_map.mp hp
    show v < get_interface_index ("GigabitEthernet0/0/0/" ++ natStr _)
    rw [get_interface_index_name]
    have hb : v ≤ (interface_counters nodes links i).getD 0 :=
      scanned_le_counter links (initCounters nodes) i v hv
    omega
  · refine List.Nodup.map ?_ (List.nodup_range _)
    intro a b hab
    have h2 := congrArg Prod.snd hab
    have h3 := interface_name_inj h2
    omega

/-- Witness for C2 at a concrete run of two allocations for one node. -/
theorem c2_interface_allocation_witness : allocGuarantee [] [] ["x", "x"] "x" :=
  c2_interface_allocation [] [] ["x", "x"] "x"

/-! ### Group configuration and the automatic adjustment step
(generate_topology.py, new_countries_config) -/

/-- The generator's overall node target. -/
def target_total : Int := 100

/-- The hardcoded per-group (per-country) node counts. -/
def new_countries_config : List (String × Int) :=
  [("ZAF", 24), ("LSO", 16), ("MOZ", 17), ("PRT", 16), ("FRA", 17)]

/-- Sum of the configured counts (Python sum of dict values). -/
def sumCounts (cfg : List (String × Int)) : Int :=
  cfg.foldl (fun a p => a + p.2) 0

/-- The automatic adjustment: when the configured sum differs from the
number of nodes needed, the FRA entry (the last-processed group) absorbs the
difference. -/
def adjustConfig (cfg : List (String × Int)) (needed : Int) : List (String × Int) :=
  if sumCounts cfg ≠ needed then
    cfg.map (fun p => if p.1 = "FRA" then (p.1, p.2 + (needed - sumCounts cfg)) else p)
  else cfg

/-- The configuration actually used by a run against a document holding
current existing nodes. -/
def adjustedConfig (current : Nat) : List (String × Int) :=
  adjustConfig new_countries_config (target_total - current)

/-- The 1.4-dominance invariant: the ZAF count is at least 1.4 times every
other group's count. -/
def zafDominance (cfg : List (String × Int)) : Prop :=
  ∀ p ∈ cfg, p.1 ≠ "ZAF" → ∀ z ∈ cfg, z.1 = "ZAF" → (1.4 : ℚ) * (p.2 : ℚ) ≤ (z.2 : ℚ)

lemma sumCounts_config : sumCounts new_countries_config = 90 := by decide

lemma adjustedConfig_eq (current : Nat) :
    adjustedConfig current
      = [("ZAF", (24 : Int)), ("LSO", 16), ("MOZ", 17), ("PRT", 16),
         ("FRA", 27 - (current : Int))] := by
  unfold adjustedConfig adjustConfig
  rw [sumCounts_config]
  by_cases h : (90 : Int) ≠ target_total - (current : Int)
  · rw [if_pos h]
    unfold target_total at h ⊢
    show [("ZAF", (24 : Int)), ("LSO", 16), ("MOZ", 17), ("PRT", 16),
        ("FRA", 17 + (100 - (current : Int) - 90))]
      = [("ZAF", (24 : Int)), ("LSO", 16), ("MOZ", 17), ("PRT", 16),
        ("FRA", 27 - (current : Int))]
    have harith : (17 : Int) + (100 - (current : Int) - 90) = 27 - (current : Int) := by
      omega
    rw [harith]
  · rw [if_neg h]
    rw [not_ne_iff] at h
    have hc : (current : Int) = 10 := by
      unfold target_total at h
      omega
    show [("ZAF", (24 : Int)), ("LSO", 16), ("MOZ", 17), ("PRT", 16), ("FRA", 17)] = _
    rw [hc]
    norm_num

/-- C3 counterexample: on a loaded document with zero existing nodes the
adjustment raises FRA to 27, and ZAF's 24 is below 1.4 times 27, so the
dominance invariant fails after adjustment. -/
theorem c3_counterexample : ¬ zafDominance (adjustedConfig 0) := by
  intro h
  have hfra : ("FRA", (27 : Int)) ∈ adjustedConfig 0 := by
    rw [adjustedConfig_eq]
    norm_num
  have hzaf : ("ZAF", (24 : Int)) ∈ adjustedConfig 0 := by
    rw [adjustedConfig_eq]
    norm_num
  have hle := h _ hfra (by decide) _ hzaf rfl
  norm_num at hle

/-- C3 amended: after the automatic adjustment step, the ZAF count is at
least 1.4 times every other configured count, provided the loaded document
has at least 10 existing nodes (for fewer, the adjusted FRA count exceeds
the bound). -/
theorem c3_zaf_dominance (current : Nat) (h : 10 ≤ current) :
    zafDominance (adjustedConfig current) := by
  rw [adjustedConfig_eq]
  intro p hp hpne z hz hzz
  have hq : (10 : ℚ) ≤ (current : Nat) := by exact_mod_cast h
  simp only [List.mem_cons, List.not_mem_nil, or_false] at hp hz
  rcases hz with rfl | rfl | rfl | rfl | rfl
  · rcases hp with rfl | rfl | rfl | rfl | rfl
    · exact absurd rfl hpne
    · norm_num
    · norm_num
    · norm_num
    · push_cast
      linarith
  · exact absurd hzz (by simp)
  · exact absurd hzz (by simp)
  · exact absurd hzz (by simp)
  · exact absurd hzz (by simp)

/-- Witness for C3 amended at exactly 10 existing nodes. -/
theorem c3_zaf_dominance_witness : zafDominance (adjustedConfig 10) :=
  c3_zaf_dominance 10 (by decide)

/-! ### Node generation (generate_topology.py, create_node and the group
loop) -/

/-- create_node: one generated router node.  The nodesSoFar argument is the
number of nodes generated before this one across all groups (Python
len(new_nodes)), used for the loopback address's third octet. -/
def create_node (country : String) (idx : Nat) (nodesSoFar : Nat) : Node :=
  { id := mkNodeId country idx
    name := mkNodeId country idx
    hostname := mkNodeId country idx
    loopback_ip := "172.16." ++ natStr (100 + nodesSoFar) ++ "." ++ natStr idx
    country := country
    is_active := true
    node_type := "router"
    neighbor_count := none }

/-- The node-generation loop: for each configured group, count nodes with
within-group indices 1..count are generated (none when the adjusted count is
not positive, as Python range(1, count+1) is then empty), threading the
global number of nodes generated so far; also builds the country_nodes map
from group tag to generated ids, in configuration order. -/
def genNodesAux : List (String × Int) → Nat → List Node × List (String × List String)
  | [], _ => ([], [])
  | (c, cnt) :: rest, off =>
    let grp := (List.range cnt.toNat).map (fun k => create_node c (k + 1) (off + k))
    let q := genNodesAux rest (off + cnt.toNat)
    (grp ++ q.1, (c, grp.map Node.id) :: q.2)

/-- Node generation for a configuration, starting from zero generated
nodes. -/
def genNodes (cfg : List (String × Int)) : List Node × List (String × List String) :=
  genNodesAux cfg 0

lemma mem_genNodesAux_ids (cfg : List (String × Int)) :
    ∀ (off : Nat) (x : String), x ∈ ((genNodesAux cfg off).1.map Node.id) →
    ∃ p ∈ cfg, ∃ k : Nat, x = mkNodeId p.1 (k + 1) := by
  induction cfg with
  | nil => intro off x hx; simp [genNodesAux] at hx
  | cons q rest ih =>
    intro off x hx
    obtain ⟨c, cnt⟩ := q
    show ∃ p ∈ (c, cnt) :: rest, _
    have hx2 : x ∈ ((List.range cnt.toNat).map (fun k => create_node c (k + 1) (off + k))
        ++ (genNodesAux rest (off + cnt.toNat)).1).map Node.id := hx
    rw [List.map_append] at hx2
    rcases List.mem_append.mp hx2 with h1 | h2
    · rw [List.map_map] at h1
      obtain ⟨k, hk, rfl⟩ := List.mem_map.mp h1
      exact ⟨(c, cnt), List.mem_cons_self _ _, k, rfl⟩
    · obtain ⟨p, hp, k, hk⟩ := ih _ x h2
      exact ⟨p, List.mem_cons_of_mem _ hp, k, hk⟩

lemma genNodesAux_ids_nodup (cfg : List (String × Int))
    (h : (cfg.map (fun p => lowerStr p.1)).Nodup) :
    ∀ off : Nat, ((genNodesAux cfg off).1.map Node.id).Nodup := by
  induction cfg with
  | nil => intro off; simp [genNodesAux]
  | cons q rest ih =>
    intro off
    obtain ⟨c, cnt⟩ := q
    simp only [List.map_cons, List.nodup_cons] at h
    obtain ⟨hhead, htail⟩ := h
    show (((List.range cnt.toNat).map (fun k => create_node c (k + 1) (off + k))
        ++ (genNodesAux rest (off + cnt.toNat)).1).map Node.id).Nodup
    rw [List.map_append, List.map_map]
    apply List.Nodup.append
    · refine List.Nodup.map ?_ (List.nodup_range _)
      intro a b hab
      have h2 := (mkNodeId_inj hab).2
      omega
    · exact ih htail _
    · intro x hx1 hx2
      obtain ⟨k, hk, rfl⟩ := List.mem_map.mp hx1
      obtain ⟨p, hp, k2, he⟩ := mem_genNodesAux_ids rest _ _ hx2
      have hlow := (mkNodeId_inj he).1
      exact hhead (hlow ▸ List.mem_map_of_mem (fun p => lowerStr p.1) hp)

/-- C9 counterexample: the two group tags "AB" and "ab" are distinct
strings, there are no existing nodes to collide with, yet the generated ids
coincide after lower-casing, so the merged id collection is not unique. -/
theorem c9_counterexample :
    ((([("AB", (1 : Int)), ("ab", 1)]).map Prod.fst).Nodup)
    ∧ (∀ n ∈ (genNodes [("AB", (1 : Int)), ("ab", 1)]).1,
        n.id ∉ (([] : List Node)).map Node.id)
    ∧ ¬ (((([] : List Node) ++ (genNodes [("AB", (1 : Int)), ("ab", 1)]).1).map Node.id).Nodup) := by
  refine ⟨by decide, by decide, by decide⟩

/-- C9 amended: when the configured group tags are mutually distinct after
lower-casing, no generated id collides with an existing node id, and the
existing ids are unique, every node id in the merged node collection is
unique. -/
theorem c9_unique_ids (cfg : List (String × Int)) (existing : List Node)
    (h1 : (cfg.map (fun p => lowerStr p.1)).Nodup)
    (h2 : ∀ n ∈ (genNodes cfg).1, n.id ∉ existing.map Node.id)
    (h3 : (existing.map Node.id).Nodup) :
    ((existing ++ (genNodes cfg).1).map Node.id).Nodup := by
  rw [List.map_append]
  refine List.Nodup.append h3 (genNodesAux_ids_nodup cfg h1 0) ?_
  intro x hx hg
  obtain ⟨n, hn, rfl⟩ := List.mem_map.mp hg
  exact h2 n hn hx

/-- Witness for C9 amended at a concrete two-group configuration. -/
theorem c9_unique_ids_witness :
    (((([⟨"zwe-r1", "zwe-r1", "zwe-r1", "172.16.1.1", "ZWE", true, "router", none⟩] : List Node))
        ++ (genNodes [("A", (1 : Int)), ("B", 2)]).1).map Node.id).Nodup :=
  c9_unique_ids [("A", (1 : Int)), ("B", 2)] _ (by decide) (by decide) (by decide)

/-! ### Link generation (generate_topology.py, create_link and the link
steps).  The mutable state of the generator: the interface counters and the
stream of random draws. -/

/-- Generator state: the interface_counters dictionary and the remaining
random stream (one natural number consumed per random draw). -/
structure GenState where
  counters : String → Option Nat
  rand : List Nat

/-- One draw from the random stream (0 when the modelled stream is
exhausted). -/
def randNext : List Nat → Nat × List Nat
  | [] => (0, [])
  | n :: r => (n, r)

/-- random.choice: uniform pick from a list, raising IndexError on an empty
list. -/
def choice (xs : List String) (r : List Nat) : Except String (String × List Nat) :=
  match xs.get? ((randNext r).1 % xs.length) with
  | some x => .ok (x, (randNext r).2)
  | none => .error "IndexError: choice from empty sequence"

/-- random.sample(xs, 2): two distinct positions, raising ValueError when the
population has fewer than 2 elements. -/
def sample2 (xs : List String) (r : List Nat) :
    Except String ((String × String) × List Nat) :=
  if xs.length < 2 then .error "ValueError: sample larger than population"
  else
    .ok ((xs.getD ((randNext r).1 % xs.length) "",
      xs.getD
        (if (randNext r).1 % xs.length ≤ (randNext (randNext r).2).1 % (xs.length - 1)
          then (randNext (randNext r).2).1 % (xs.length - 1) + 1
          else (randNext (randNext r).2).1 % (xs.length - 1)) ""),
      (randNext (randNext r).2).2)

/-- create_link: one generated link with freshly allocated interfaces
(source first, then target), cost 10 for backbone and 100 otherwise, and the
fixed capacity/traffic defaults. -/
def create_link (src dst ty : String) (st : GenState) : Link × GenState :=
  let cost := if ty = "backbone" then 10 else 100
  let p1 := get_next_interface st.counters src
  let p2 := get_next_interface p1.1 dst
  (⟨src, dst, p1.2, p2.2, cost, cost, cost, "up", ty, false,
    ⟨"1G", false, 1000⟩, ⟨"1G", false, 1000⟩, ⟨0, 0, 0, 0⟩⟩,
    { st with counters := p2.1 })

/-- The ring loop body over the listed positions: connect node i to node
(i+1) mod group size. -/
def ringAux (nodes : List String) : List Nat → GenState → List Link × GenState
  | [], st => ([], st)
  | i :: is2, st =>
    let p := create_link (nodes.getD i "") (nodes.getD ((i + 1) % nodes.length) "")
      "backbone" st
    let q := ringAux nodes is2 p.2
    (p.1 :: q.1, q.2)

/-- The ring step for one group. -/
def ringStep (nodes : List String) (st : GenState) : List Link × GenState :=
  ringAux nodes (List.range nodes.length) st

/-- The chord loop: num_cross iterations, each drawing two uniform nodes and
adding a link only when they differ (equal picks are skipped, not
retried). -/
def chordAux (nodes : List String) : Nat → GenState → Except String (List Link × GenState)
  | 0, st => .ok ([], st)
  | k + 1, st =>
    match choice nodes st.rand with
    | .error e => .error e
    | .ok (src, r1) =>
      match choice nodes r1 with
      | .error e => .error e
      | .ok (dst, r2) =>
        if src ≠ dst then
          let p := create_link src dst "backbone" { st with rand := r2 }
          match chordAux nodes k p.2 with
          | .error e => .error e
          | .ok (ls, st2) => .ok (p.1 :: ls, st2)
        else
          chordAux nodes k { st with rand := r2 }

/-- The random-chord step for one group: max(2, groupSize / 3) draws. -/
def chordStep (nodes : List String) (st : GenState) :
    Except String (List Link × GenState) :=
  chordAux nodes (max 2 (nodes.length / 3)) st

/-- Python country_nodes[c]: first entry of the association list with the
given tag. -/
def lookupCN (cn : List (String × List String)) (c : String) : List String :=
  match cn.find? (fun p => p.1 == c) with
  | some p => p.2
  | none => []

/-- The intra-group phase: for each group in order, the ring step and then
the chord step. -/
def intraStep : List (String × List String) → GenState →
    Except String (List Link × GenState)
  | [], st => .ok ([], st)
  | (_, ns) :: rest, st =>
    let r := ringStep ns st
    match chordStep ns r.2 with
    | .error e => .error e
    | .ok (ch, st1) =>
      match intraStep rest st1 with
      | .error e => .error e
      | .ok (more, st2) => .ok (r.1 ++ ch ++ more, st2)

/-- The inter-group ring loop over the listed positions of the group cycle:
sample two distinct nodes from each of two ring-adjacent groups and connect
them pairwise. -/
def interAux (cn : List (String × List String)) :
    List Nat → GenState → Except String (List Link × GenState)
  | [], st => .ok ([], st)
  | i :: is2, st =>
    match sample2 (lookupCN cn ((cn.map Prod.fst).getD i "")) st.rand with
    | .error e => .error e
    | .ok (s, r1) =>
      match sample2 (lookupCN cn ((cn.map Prod.fst).getD ((i + 1) % cn.length) "")) r1 with
      | .error e => .error e
      | .ok (t, r2) =>
        let p1 := create_link s.1 t.1 "backbone" { st with rand := r2 }
        let p2 := create_link s.2 t.2 "backbone" p1.2
        match interAux cn is2 p2.2 with
        | .error e => .error e
        | .ok (ls, st2) => .ok (p1.1 :: p2.1 :: ls, st2)

/-- The inter-group ring step: one pair of redundant links for every
adjacent pair of groups in the configured cycle. -/
def interRing (cn : List (String × List String)) (st : GenState) :
    Except String (List Link × GenState) :=
  interAux cn (List.range cn.length) st

/-- Python existing_by_country[c]: ids of the existing nodes of one country,
in document order. -/
def existingByCountry (existing : List Node) (c : String) : List String :=
  (existing.filter (fun n => n.country == c)).map Node.id

/-- One optional bridge edge: when cond holds, draw one node from each side
and link them. -/
def maybeBridge (grpA grpB : List String) (cond : Bool) (st : GenState) :
    Except String (List Link × GenState) :=
  if cond then
    match choice grpA st.rand with
    | .error e => .error e
    | .ok (s, r1) =>
      match choice grpB r1 with
      | .error e => .error e
      | .ok (t, r2) =>
        let p := create_link s t "backbone" { st with rand := r2 }
        .ok ([p.1], p.2)
  else .ok ([], st)

/-- The fixed bridge-edge phase: four conditional bridges from new groups to
pre-existing countries, then the two unconditional new-group bridges
(MOZ to ZAF and LSO to ZAF). -/
def bridges (existing : List Node) (cn : List (String × List String)) (st : GenState) :
    Except String (List Link × GenState) :=
  match maybeBridge (lookupCN cn "ZAF") (existingByCountry existing "ZWE")
      (!(existingByCountry existing "ZWE").isEmpty) st with
  | .error e => .error e
  | .ok (l1, st1) =>
    match maybeBridge (lookupCN cn "PRT") (existingByCountry existing "DEU")
        (!(existingByCountry existing "DEU").isEmpty) st1 with
    | .error e => .error e
    | .ok (l2, st2) =>
      match maybeBridge (lookupCN cn "FRA") (existingByCountry existing "GBR")
          (!(existingByCountry existing "GBR").isEmpty) st2 with
      | .error e => .error e
      | .ok (l3, st3) =>
        match maybeBridge (lookupCN cn "PRT") (existingByCountry existing "USA")
            (!(existingByCountry existing "USA").isEmpty) st3 with
        | .error e => .error e
        | .ok (l4, st4) =>
          match maybeBridge (lookupCN cn "MOZ") (lookupCN cn "ZAF") true st4 with
          | .error e => .error e
          | .ok (l5, st5) =>
            match maybeBridge (lookupCN cn "LSO") (lookupCN cn "ZAF") true st5 with
            | .error e => .error e
            | .ok (l6, st6) => .ok (l1 ++ l2 ++ l3 ++ l4 ++ l5 ++ l6, st6)

/-- Counter initialisation for the generated nodes (Python sets each new
node's counter to 0 at creation time). -/
def resetNew (m : String → Option Nat) (newNodes : List Node) : String → Option Nat :=
  fun i => if i ∈ newNodes.map Node.id then some 0 else m i

/-- The topology writer: merge generated nodes and links after the loaded
ones, refresh the summary metadata, stamp the time and description. -/
def writeDoc (d : Document) (now : String) (newNodes : List Node)
    (newLinks : List Link) : Document :=
  { nodes := d.nodes ++ newNodes
    links := d.links ++ newLinks
    metadata :=
      { node_count := (d.nodes ++ newNodes).length
        edge_count := (d.links ++ newLinks).length
        description := "Expanded topology with 100 routers (Unique Interfaces)"
        export_timestamp := now } }

/-- The whole generator run: adjust the hardcoded configuration to the
loaded document, generate nodes, scan and reset interface counters, run the
intra-group, inter-group and bridge link phases, and write the merged
document.  Any raised error aborts the run before anything is written. -/
def generate (d : Document) (now : String) (r : List Nat) : Except String Document :=
  let cfg := adjustedConfig d.nodes.length
  let g := genNodes cfg
  let st0 : GenState := ⟨resetNew (interface_counters d.nodes d.links) g.1, r⟩
  match intraStep g.2 st0 with
  | .error e => .error e
  | .ok (intra, st1) =>
    match interRing g.2 st1 with
    | .error e => .error e
    | .ok (inter, st2) =>
      match bridges d.nodes g.2 st2 with
      | .error e => .error e
      | .ok (bri, _) => .ok (writeDoc d now g.1 (intra ++ inter ++ bri))

/-! ### Properties of the ring step (C5) -/

lemma ringAux_length (nodes : List String) :
    ∀ (is2 : List Nat) (st : GenState), (ringAux nodes is2 st).1.length = is2.length := by
  intro is2
  induction is2 with
  | nil => intro st; rfl
  | cons i rest ih =>
    intro st
    show ((create_link _ _ _ st).1 :: (ringAux nodes rest (create_link _ _ _ st).2).1).length = _
    simp [ih]

lemma ringAux_map_src (nodes : List String) :
    ∀ (is2 : List Nat) (st : GenState),
    (ringAux nodes is2 st).1.map Link.source = is2.map (fun i => nodes.getD i "") := by
  intro is2
  induction is2 with
  | nil => intro st; rfl
  | cons i rest ih =>
    intro st
    show ((create_link _ _ _ st).1 :: (ringAux nodes rest (create_link _ _ _ st).2).1).map
        Link.source = _
    rw [List.map_cons, ih]
    rfl

lemma ringAux_map_tgt (nodes : List String) :
    ∀ (is2 : List Nat) (st : GenState),
    (ringAux nodes is2 st).1.map Link.target
      = is2.map (fun i => nodes.getD ((i + 1) % nodes.length) "") := by
  intro is2
  induction is2 with
  | nil => intro st; rfl
  | cons i rest ih =>
    intro st
    show ((create_link _ _ _ st).1 :: (ringAux nodes rest (create_link _ _ _ st).2).1).map
        Link.target = _
    rw [List.map_cons, ih]
    rfl

lemma map_getD_range (l : List String) :
    (List.range l.length).map (fun i => l.getD i "") = l := by
  induction l with
  | nil => rfl
  | cons a t ih =>
    show (List.range (t.length + 1)).map (fun i => (a :: t).getD i "") = a :: t
    rw [List.range_succ_eq_map, List.map_cons, List.map_map]
    have h2 : (fun i => (a :: t).getD i "") ∘ Nat.succ = fun i => t.getD i "" := by
      funext i
      rfl
    rw [h2, ih]
    rfl

lemma map_getD_range_rotate (l : List String) (hne : l ≠ []) :
    (List.range l.length).map (fun i => l.getD ((i + 1) % l.length) "") = l.rotate 1 := by
  have hpos : 0 < l.length := List.length_pos.mpr hne
  apply List.ext_get
  · simp
  · intro k h1 h2
    have hk : k < l.length := by simpa using h1
    have hmod : (k + 1) % l.length < l.length := Nat.mod_lt _ hpos
    rw [List.get_map, List.get_rotate]
    have hr : ((List.range l.length).get ⟨k, by simpa using hk⟩) = k := by simp
    rw [hr, List.getD_eq_get l "" hmod]

lemma endpointCount_eq_counts (ls : List Link) (x : String) :
    endpointCount ls x = (ls.map Link.source).count x + (ls.map Link.target).count x := by
  induction ls with
  | nil => rfl
  | cons l t ih =>
    show (if l.source = x then 1 else 0)
        + ((if l.target = x then 1 else 0) + endpointCount t x) = _
    rw [ih, List.map_cons, List.map_cons, List.count_cons, List.count_cons]
    by_cases hs : l.source = x <;> by_cases ht : l.target = x <;>
      simp [hs, ht] <;> omega

lemma ring_degree (nodes : List String) (st : GenState) (x : String) (hx : x ∈ nodes) :
    2 ≤ endpointCount (ringStep nodes st).1 x := by
  have hne : nodes ≠ [] := by rintro rfl; simp at hx
  rw [endpointCount_eq_counts]
  show 2 ≤ ((ringAux nodes (List.range nodes.length) st).1.map Link.source).count x
      + ((ringAux nodes (List.range nodes.length) st).1.map Link.target).count x
  rw [ringAux_map_src, ringAux_map_tgt, map_getD_range, map_getD_range_rotate nodes hne]
  have h1 : 0 < nodes.count x := List.count_pos_iff.mpr hx
  have h2 : (nodes.rotate 1).count x = nodes.count x := (List.rotate_perm nodes 1).count_eq x
  omega

/-- The cycle shape of the ring step on one group: exactly groupSize edges,
whose sources enumerate the group's nodes in order and whose targets are the
same sequence rotated by one (the wraparound cycle), so every group node is
covered and has ring-degree at least two. -/
def ringSpec (nodes : List String) (st : GenState) : Prop :=
  (ringStep nodes st).1.length = nodes.length
  ∧ (ringStep nodes st).1.map Link.source = nodes
  ∧ (ringStep nodes st).1.map Link.target = nodes.rotate 1
  ∧ ∀ x ∈ nodes, 2 ≤ endpointCount (ringStep nodes st).1 x

/-- An empty generator state for concrete runs. -/
def emptyState : GenState := ⟨fun _ => none, []⟩

/-- The spec's scenario: group config A=3 and B=2 with no existing nodes or
links; the ring step gives a 3-cycle on A, a double edge on B, five ring
edges in total. -/
def ringScenario : Prop :=
  (ringStep (lookupCN (genNodes [("A", (3 : Int)), ("B", 2)]).2 "A") emptyState).1.map
      (fun l => (l.source, l.target))
    = [("a-r1", "a-r2"), ("a-r2", "a-r3"), ("a-r3", "a-r1")]
  ∧ (ringStep (lookupCN (genNodes [("A", (3 : Int)), ("B", 2)]).2 "B") emptyState).1.map
      (fun l => (l.source, l.target))
    = [("b-r1", "b-r2"), ("b-r2", "b-r1")]
  ∧ (ringStep (lookupCN (genNodes [("A", (3 : Int)), ("B", 2)]).2 "A") emptyState).1.length
    + (ringStep (lookupCN (genNodes [("A", (3 : Int)), ("B", 2)]).2 "B") emptyState).1.length
    = 5

/-- C5: for every group of size at least 2 the ring step produces exactly
groupSize edges forming one cycle covering all the group's nodes, with every
node's ring-degree at least 2; and in the scenario with groups A=3, B=2 and
nothing existing, it yields 3 edges on A, a double edge on B, 5 in total. -/
theorem c5_ring_cycle (nodes : List String) (st : GenState)
    (h : 2 ≤ nodes.length) : ringSpec nodes st ∧ ringScenario := by
  constructor
  · have hne : nodes ≠ [] := by
      intro hnil
      rw [hnil] at h
      simp at h
    refine ⟨?_, ?_, ?_, ?_⟩
    · show (ringAux nodes (List.range nodes.length) st).1.length = _
      rw [ringAux_length]
      simp
    · show (ringAux nodes (List.range nodes.length) st).1.map Link.source = _
      rw [ringAux_map_src, map_getD_range]
    · show (ringAux nodes (List.range nodes.length) st).1.map Link.target = _
      rw [ringAux_map_tgt, map_getD_range_rotate nodes hne]
    · intro x hx
      exact ring_degree nodes st x hx
  · refine ⟨by decide, by decide, by decide⟩

/-- Witness for C5 at a concrete two-node group. -/
theorem c5_ring_cycle_witness : ringSpec ["x", "y"] emptyState ∧ ringScenario :=
  c5_ring_cycle ["x", "y"] emptyState (by decide)

/-! ### Properties of the random-chord step (C4) -/

lemma chordAux_le (nodes : List String) :
    ∀ (k : Nat) (st : GenState) (ls : List Link) (st2 : GenState),
    chordAux nodes k st = .ok (ls, st2) → ls.length ≤ k := by
  intro k
  induction k with
  | zero =>
    intro st ls st2 h
    unfold chordAux at h
    injection h with h3
    rw [Prod.mk.injEq] at h3
    rw [← h3.1]
    simp
  | succ k ih =>
    intro st ls st2 h
    unfold chordAux at h
    split at h
    · simp at h
    · split at h
      · simp at h
      · split at h
        · dsimp only [] at h
          split at h
          · simp at h
          · rename_i src r1 dst r2 hne ls2 st3 heq
            injection h with h3
            rw [Prod.mk.injEq] at h3
            rw [← h3.1]
            have := ih _ _ _ heq
            simp
            omega
        · have := ih _ _ _ h
          omega

/-- C4 counterexample: with the two-node group a, b and a random stream of
zeros both draws pick the same node, so the chord step adds 0 edges, not the
claimed max(2, floor(2/3)) = 2. -/
theorem c4_counterexample :
    chordStep ["a", "b"] emptyState = .ok ([], emptyState)
    ∧ max 2 ((["a", "b"] : List String).length / 3) = 2 := ⟨rfl, rfl⟩

/-- C4 amended: the random-chord step adds at most max(2, floor(groupSize/3))
intra-group edges; each of its max(2, floor(groupSize/3)) iterations adds an
edge only when the two uniformly chosen endpoints differ, and equal picks
are skipped rather than retried, so the count can fall short. -/
theorem c4_chords_at_most (nodes : List String) (st : GenState)
    (ls : List Link) (st2 : GenState)
    (h : chordStep nodes st = .ok (ls, st2)) :
    ls.length ≤ max 2 (nodes.length / 3) :=
  chordAux_le nodes _ st ls st2 h

/-- Witness for C4 amended at a concrete skipped-draw run. -/
theorem c4_chords_at_most_witness :
    ([] : List Link).length ≤ max 2 ((["a", "b"] : List String).length / 3) :=
  c4_chords_at_most ["a", "b"] emptyState [] emptyState rfl

/-! ### Properties of the inter-group ring step and the whole run (C10, C8) -/

lemma choice_ok {xs : List String} (h : xs ≠ []) (r : List Nat) :
    ∃ a r2, choice xs r = .ok (a, r2) := by
  have hpos : 0 < xs.length := List.length_pos.mpr h
  have hlt : (randNext r).1 % xs.length < xs.length := Nat.mod_lt _ hpos
  refine ⟨xs.get ⟨(randNext r).1 % xs.length, hlt⟩, (randNext r).2, ?_⟩
  unfold choice
  rw [List.get?_eq_get hlt]

lemma sample2_ok_of_ge2 {xs : List String} (h : 2 ≤ xs.length) (r : List Nat) :
    ∃ pr r2, sample2 xs r = .ok (pr, r2) := by
  unfold sample2
  rw [if_neg (by omega)]
  exact ⟨_, _, rfl⟩

lemma sample2_ok_length {xs : List String} {r : List Nat}
    {res : (String × String) × List Nat}
    (h : sample2 xs r = .ok res) : 2 ≤ xs.length := by
  unfold sample2 at h
  by_cases h2 : xs.length < 2
  · rw [if_pos h2] at h
    simp at h
  · omega

lemma lookupCN_found {cn : List (String × List String)} {c : String}
    (h : c ∈ cn.map Prod.fst) : ∃ p ∈ cn, p.1 = c ∧ lookupCN cn c = p.2 := by
  obtain ⟨p, hp, hpc⟩ := List.mem_map.mp h
  have hs : (cn.find? (fun q => q.1 == c)).isSome := by
    rw [List.find?_isSome]
    exact ⟨p, hp, by simp [hpc]⟩
  obtain ⟨a, ha⟩ := Option.isSome_iff_exists.mp hs
  have hmem := List.mem_of_find?_eq_some ha
  have hprop := List.find?_some ha
  simp only [beq_iff_eq] at hprop
  refine ⟨a, hmem, hprop, ?_⟩
  unfold lookupCN
  rw [ha]

lemma lookupCN_nodup {cn : List (String × List String)}
    (hnd : (cn.map Prod.fst).Nodup) {q : String × List String} (hq : q ∈ cn) :
    lookupCN cn q.1 = q.2 := by
  induction cn with
  | nil => simp at hq
  | cons a rest ih =>
    simp only [List.map_cons, List.nodup_cons] at hnd
    rcases List.mem_cons.mp hq with rfl | hq2
    · unfold lookupCN
      rw [List.find?_cons_of_pos _ (by simp)]
    · have hne : ¬ ((a.1 == q.1) = true) := by
        intro hbeq
        rw [beq_iff_eq] at hbeq
        exact hnd.1 (hbeq ▸ List.mem_map_of_mem Prod.fst hq2)
      unfold lookupCN
      rw [List.find?_cons_of_neg _ (by simpa using hne)]
      exact ih hnd.2 hq2

lemma interAux_ok_mem (cn : List (String × List String)) :
    ∀ (is2 : List Nat) (st : GenState) (res : List Link × GenState),
    interAux cn is2 st = .ok res → ∀ i ∈ is2,
    2 ≤ (lookupCN cn ((cn.map Prod.fst).getD i "")).length := by
  intro is2
  induction is2 with
  | nil => intro st res h i hi; simp at hi
  | cons j rest ih =>
    intro st res h i hi
    unfold interAux at h
    split at h
    · simp at h
    · rename_i s r1 heq1
      split at h
      · simp at h
      · rename_i t r2 heq2
        dsimp only [] at h
        split at h
        · simp at h
        · rename_i ls st2 heq3
          rcases List.mem_cons.mp hi with rfl | hi2
          · exact sample2_ok_length heq1
          · exact ih _ _ heq3 i hi2

lemma interAux_ok_of_all (cn : List (String × List String))
    (hall : ∀ p ∈ cn, 2 ≤ p.2.length) :
    ∀ (is2 : List Nat), (∀ i ∈ is2, i < cn.length) →
    ∀ st, ∃ res, interAux cn is2 st = .ok res := by
  intro is2
  induction is2 with
  | nil => intro hbound st; exact ⟨([], st), rfl⟩
  | cons j rest ih =>
    intro hbound st
    have hj : j < cn.length := hbound j (List.mem_cons_self _ _)
    have hpos : 0 < cn.length := by omega
    have hk1 : (cn.map Prod.fst).getD j "" ∈ cn.map Prod.fst := by
      rw [List.getD_eq_get _ _ (by simpa using hj)]
      exact List.get_mem _ _ _
    obtain ⟨p1, hp1, hp1c, hl1⟩ := lookupCN_found hk1
    have hlen1 : 2 ≤ (lookupCN cn ((cn.map Prod.fst).getD j "")).length := by
      rw [hl1]
      exact hall p1 hp1
    have hk2 : (cn.map Prod.fst).getD ((j + 1) % cn.length) "" ∈ cn.map Prod.fst := by
      rw [List.getD_eq_get _ _ (by simpa using Nat.mod_lt (j + 1) hpos)]
      exact List.get_mem _ _ _
    obtain ⟨p2, hp2, hp2c, hl2⟩ := lookupCN_found hk2
    have hlen2 : 2 ≤ (lookupCN cn ((cn.map Prod.fst).getD ((j + 1) % cn.length) "")).length := by
      rw [hl2]
      exact hall p2 hp2
    obtain ⟨pr1, r1, hs1⟩ := sample2_ok_of_ge2 hlen1 st.rand
    obtain ⟨pr2, r2, hs2⟩ := sample2_ok_of_ge2 hlen2 r1
    obtain ⟨res, hres⟩ := ih (fun i hi => hbound i (List.mem_cons_of_mem _ hi))
      (create_link pr1.2 pr2.2 "backbone"
        (create_link pr1.1 pr2.1 "backbone" { st with rand := r2 }).2).2
    refine ⟨((create_link pr1.1 pr2.1 "backbone" { st with rand := r2 }).1
      :: (create_link pr1.2 pr2.2 "backbone"
        (create_link pr1.1 pr2.1 "backbone" { st with rand := r2 }).2).1
      :: res.1, res.2), ?_⟩
    unfold interAux
    rw [hs1]
    dsimp only []
    rw [hs2]
    dsimp only []
    rw [hres]

lemma interRing_ok_of_all {cn : List (String × List String)}
    (hall : ∀ p ∈ cn, 2 ≤ p.2.length) (st : GenState) :
    ∃ res, interRing cn st = .ok res :=
  interAux_ok_of_all cn hall (List.range cn.length)
    (fun i hi => List.mem_range.mp hi) st

lemma interRing_ok_all {cn : List (String × List String)}
    (hnd : (cn.map Prod.fst).Nodup) {st : GenState} {res : List Link × GenState}
    (h : interRing cn st = .ok res) : ∀ p ∈ cn, 2 ≤ p.2.length := by
  intro p hp
  have hkey : p.1 ∈ cn.map Prod.fst := List.mem_map_of_mem _ hp
  obtain ⟨k, hk⟩ := List.mem_iff_get.mp hkey
  have hklt : (k : Nat) < cn.length := by simpa using k.isLt
  have h2 := interAux_ok_mem cn (List.range cn.length) st res h k
    (List.mem_range.mpr hklt)
  rw [List.getD_eq_get _ _ (by simpa using hklt)] at h2
  have hget : (cn.map Prod.fst).get ⟨(k : Nat), by simpa using hklt⟩ = p.1 := by
    have : (⟨(k : Nat), by simpa using hklt⟩ : Fin (cn.map Prod.fst).length) = k := by
      apply Fin.ext
      rfl
    rw [this]
    exact hk
  rw [hget, lookupCN_nodup hnd hp] at h2
  exact h2

lemma genNodesAux_keys (cfg : List (String × Int)) :
    ∀ off : Nat, (genNodesAux cfg off).2.map Prod.fst = cfg.map Prod.fst := by
  induction cfg with
  | nil => intro off; rfl
  | cons q rest ih =>
    intro off
    obtain ⟨c, cnt⟩ := q
    show ((c, ((List.range cnt.toNat).map (fun k => create_node c (k + 1) (off + k))).map Node.id)
        :: (genNodesAux rest (off + cnt.toNat)).2).map Prod.fst = _
    rw [List.map_cons, ih]
    rfl

lemma genNodesAux_shape (cfg : List (String × Int)) :
    ∀ off : Nat, (genNodesAux cfg off).2.map (fun p => (p.1, p.2.length))
      = cfg.map (fun q => (q.1, q.2.toNat)) := by
  induction cfg with
  | nil => intro off; rfl
  | cons q rest ih =>
    intro off
    obtain ⟨c, cnt⟩ := q
    show ((c, ((List.range cnt.toNat).map (fun k => create_node c (k + 1) (off + k))).map Node.id)
        :: (genNodesAux rest (off + cnt.toNat)).2).map (fun p => (p.1, p.2.length)) = _
    rw [List.map_cons, ih]
    simp

lemma genNodesAux_length (cfg : List (String × Int)) :
    ∀ off : Nat, (genNodesAux cfg off).1.length = (cfg.map (fun p => p.2.toNat)).sum := by
  induction cfg with
  | nil => intro off; rfl
  | cons q rest ih =>
    intro off
    obtain ⟨c, cnt⟩ := q
    show (((List.range cnt.toNat).map (fun k => create_node c (k + 1) (off + k)))
        ++ (genNodesAux rest (off + cnt.toNat)).1).length = _
    rw [List.length_append, ih]
    simp

lemma adjustedConfig_keys (current : Nat) :
    (adjustedConfig current).map Prod.fst = ["ZAF", "LSO", "MOZ", "PRT", "FRA"] := by
  rw [adjustedConfig_eq]
  rfl

lemma generate_ok_inv {d : Document} {now : String} {r : List Nat} {out : Document}
    (h : generate d now r = .ok out) :
    ∃ intra st1 inter st2 bri st3,
      intraStep (genNodes (adjustedConfig d.nodes.length)).2
        ⟨resetNew (interface_counters d.nodes d.links)
          (genNodes (adjustedConfig d.nodes.length)).1, r⟩ = .ok (intra, st1)
      ∧ interRing (genNodes (adjustedConfig d.nodes.length)).2 st1 = .ok (inter, st2)
      ∧ bridges d.nodes (genNodes (adjustedConfig d.nodes.length)).2 st2 = .ok (bri, st3)
      ∧ out = writeDoc d now (genNodes (adjustedConfig d.nodes.length)).1
          (intra ++ inter ++ bri) := by
  unfold generate at h
  dsimp only [] at h
  split at h
  · simp at h
  · rename_i intra st1 h1
    split at h
    · simp at h
    · rename_i inter st2 h2
      split at h
      · simp at h
      · rename_i bri st3 h3
        injection h with h4
        exact ⟨intra, st1, inter, st2, bri, st3, h1, h2, h3, h4.symm⟩

/-- Every configured count of a successful run is at least 2 (the
inter-group sampling forces it). -/
lemma generate_ok_counts {d : Document} {now : String} {r : List Nat} {out : Document}
    (h : generate d now r = .ok out) :
    ∀ p ∈ adjustedConfig d.nodes.length, 2 ≤ p.2 := by
  obtain ⟨intra, st1, inter, st2, bri, st3, h1, h2, h3, h4⟩ := generate_ok_inv h
  intro p hp
  have hkeys : ((genNodes (adjustedConfig d.nodes.length)).2.map Prod.fst).Nodup := by
    show ((genNodesAux (adjustedConfig d.nodes.length) 0).2.map Prod.fst).Nodup
    rw [genNodesAux_keys, adjustedConfig_keys]
    decide
  have hall := interRing_ok_all hkeys h2
  have hm : (p.1, p.2.toNat) ∈ (genNodes (adjustedConfig d.nodes.length)).2.map
      (fun q => (q.1, q.2.length)) := by
    show (p.1, p.2.toNat) ∈ (genNodesAux (adjustedConfig d.nodes.length) 0).2.map
      (fun q => (q.1, q.2.length))
    rw [genNodesAux_shape]
    exact List.mem_map_of_mem _ hp
  obtain ⟨p2, hp2, hp2eq⟩ := List.mem_map.mp hm
  have hlen := hall p2 hp2
  rw [Prod.mk.injEq] at hp2eq
  omega

/-- The requirement the inter-group ring step places on the group sizes:
it succeeds whenever every group holds at least 2 nodes, and (for distinct
group tags) it cannot succeed when some group holds fewer than 2 nodes,
because the two-element sample from that group raises. -/
def interRingRequires (cn : List (String × List String)) (st : GenState) : Prop :=
  ((∀ p ∈ cn, 2 ≤ p.2.length) → ∃ res, interRing cn st = .ok res)
  ∧ ((cn.map Prod.fst).Nodup →
      ∀ p ∈ cn, p.2.length < 2 → ∀ res, interRing cn st ≠ .ok res)

/-- C10: the inter-group ring step requires every configured group to hold
at least 2 generated nodes; with at least 2 everywhere the step succeeds,
with fewer anywhere the sample raises; and a whole generator run whose
adjusted configuration leaves some group below 2 cannot produce an output
document. -/
theorem c10_intergroup_requires_two (cn : List (String × List String)) (st : GenState) :
    interRingRequires cn st
    ∧ ∀ (d : Document) (now : String) (r : List Nat) (out : Document),
      (∃ p ∈ adjustedConfig d.nodes.length, p.2 < 2) →
      generate d now r ≠ .ok out := by
  constructor
  · constructor
    · intro hall
      exact interRing_ok_of_all hall st
    · intro hnd p hp hlt res hok
      have := interRing_ok_all hnd hok p hp
      omega
  · intro d now r out hex hok
    obtain ⟨p, hp, hplt⟩ := hex
    have := generate_ok_counts hok p hp
    omega

/-- Witness for C10 at a concrete single-group map. -/
theorem c10_intergroup_requires_two_witness :
    interRingRequires [("A", ["x", "y"])] emptyState
    ∧ ∀ (d : Document) (now : String) (r : List Nat) (out : Document),
      (∃ p ∈ adjustedConfig d.nodes.length, p.2 < 2) →
      generate d now r ≠ .ok out :=
  c10_intergroup_requires_two [("A", ["x", "y"])] emptyState

lemma foldl_add_shift (cfg : List (String × Int)) :
    ∀ x : Int, cfg.foldl (fun a p => a + p.2) x = x + sumCounts cfg := by
  induction cfg with
  | nil => intro x; simp [sumCounts]
  | cons q rest ih =>
    intro x
    show rest.foldl (fun a p => a + p.2) (x + q.2) = x + sumCounts (q :: rest)
    rw [ih]
    show _ = x + rest.foldl (fun a p => a + p.2) (0 + q.2)
    rw [ih]
    omega

lemma sumCounts_eq_toNat_sum (cfg : List (String × Int)) (h : ∀ p ∈ cfg, 0 ≤ p.2) :
    (((cfg.map (fun p => p.2.toNat)).sum : Nat) : Int) = sumCounts cfg := by
  induction cfg with
  | nil => simp [sumCounts]
  | cons q rest ih =>
    have hq := h q (List.mem_cons_self _ _)
    have hrest := ih (fun p hp => h p (List.mem_cons_of_mem _ hp))
    rw [List.map_cons, List.sum_cons]
    rw [Nat.cast_add]
    rw [hrest]
    show (q.2.toNat : Int) + sumCounts rest = rest.foldl (fun a p => a + p.2) (0 + q.2)
    rw [foldl_add_shift]
    omega

/-- C8: for every successfully generated document, the number of written
nodes equals the number of loaded nodes plus the sum of the configured
per-group counts after the automatic adjustment, and the metadata node_count
and edge_count fields equal the lengths of the written node and link
sequences. -/
theorem c8_written_counts (d : Document) (now : String) (r : List Nat)
    (out : Document) (h : generate d now r = .ok out) :
    (out.nodes.length : Int)
      = (d.nodes.length : Int) + sumCounts (adjustedConfig d.nodes.length)
    ∧ out.metadata.node_count = out.nodes.length
    ∧ out.metadata.edge_count = out.links.length := by
  have hge2 := generate_ok_counts h
  obtain ⟨intra, st1, inter, st2, bri, st3, h1, h2, h3, h4⟩ := generate_ok_inv h
  subst h4
  refine ⟨?_, rfl, rfl⟩
  show ((d.nodes ++ (genNodes (adjustedConfig d.nodes.length)).1).length : Int) = _
  rw [List.length_append]
  have hlen : (genNodes (adjustedConfig d.nodes.length)).1.length
      = ((adjustedConfig d.nodes.length).map (fun p => p.2.toNat)).sum :=
    genNodesAux_length (adjustedConfig d.nodes.length) 0
  rw [hlen]
  rw [Nat.cast_add, sumCounts_eq_toNat_sum _ (fun p hp => by have := hge2 p hp; omega)]

lemma chordAux_ok {nodes : List String} (h : nodes ≠ []) :
    ∀ (k : Nat) (st : GenState), ∃ res, chordAux nodes k st = .ok res := by
  intro k
  induction k with
  | zero => intro st; exact ⟨([], st), rfl⟩
  | succ k ih =>
    intro st
    obtain ⟨a, r1, ha⟩ := choice_ok h st.rand
    obtain ⟨b, r2, hb⟩ := choice_ok h r1
    by_cases hab : a ≠ b
    · obtain ⟨res, hres⟩ := ih (create_link a b "backbone" { st with rand := r2 }).2
      refine ⟨((create_link a b "backbone" { st with rand := r2 }).1 :: res.1, res.2), ?_⟩
      unfold chordAux
      rw [ha]
      dsimp only []
      rw [hb]
      dsimp only []
      rw [if_pos hab]
      rw [hres]
    · obtain ⟨res, hres⟩ := ih { st with rand := r2 }
      refine ⟨res, ?_⟩
      unfold chordAux
      rw [ha]
      dsimp only []
      rw [hb]
      dsimp only []
      rw [if_neg hab]
      exact hres

lemma intraStep_ok : ∀ (cn : List (String × List String)),
    (∀ p ∈ cn, p.2 ≠ []) → ∀ st, ∃ res, intraStep cn st = .ok res := by
  intro cn
  induction cn with
  | nil => intro h st; exact ⟨([], st), rfl⟩
  | cons q rest ih =>
    intro h st
    obtain ⟨c, ns⟩ := q
    have hns : ns ≠ [] := h (c, ns) (List.mem_cons_self _ _)
    obtain ⟨ch, hch⟩ := chordAux_ok hns (max 2 (ns.length / 3)) (ringStep ns st).2
    obtain ⟨more, hmore⟩ := ih (fun p hp => h p (List.mem_cons_of_mem _ hp)) ch.2
    refine ⟨((ringStep ns st).1 ++ ch.1 ++ more.1, more.2), ?_⟩
    have hch2 : chordStep ns (ringStep ns st).2 = .ok ch := hch
    unfold intraStep
    dsimp only []
    rw [hch2]
    dsimp only []
    rw [hmore]

lemma ne_nil_of_not_isEmpty {l : List String} (h : (!l.isEmpty) = true) : l ≠ [] := by
  intro hnil
  subst hnil
  simp at h

lemma maybeBridge_ok {grpA grpB : List String} {cond : Bool} (st : GenState)
    (hA : cond = true → grpA ≠ []) (hB : cond = true → grpB ≠ []) :
    ∃ res, maybeBridge grpA grpB cond st = .ok res := by
  cases cond with
  | false => exact ⟨([], st), rfl⟩
  | true =>
    obtain ⟨a, r1, ha⟩ := choice_ok (hA rfl) st.rand
    obtain ⟨b, r2, hb⟩ := choice_ok (hB rfl) r1
    refine ⟨([(create_link a b "backbone" { st with rand := r2 }).1],
      (create_link a b "backbone" { st with rand := r2 }).2), ?_⟩
    unfold maybeBridge
    rw [if_pos rfl]
    rw [ha]
    dsimp only []
    rw [hb]

lemma bridges_ok (existing : List Node) (cn : List (String × List String)) (st : GenState)
    (hZAF : lookupCN cn "ZAF" ≠ []) (hPRT : lookupCN cn "PRT" ≠ [])
    (hFRA : lookupCN cn "FRA" ≠ []) (hMOZ : lookupCN cn "MOZ" ≠ [])
    (hLSO : lookupCN cn "LSO" ≠ []) :
    ∃ res, bridges existing cn st = .ok res := by
  obtain ⟨res1, hb1⟩ := maybeBridge_ok st (fun _ => hZAF)
    (fun hc => ne_nil_of_not_isEmpty hc)
  obtain ⟨res2, hb2⟩ := maybeBridge_ok res1.2 (fun _ => hPRT)
    (fun hc => ne_nil_of_not_isEmpty hc)
  obtain ⟨res3, hb3⟩ := maybeBridge_ok res2.2 (fun _ => hFRA)
    (fun hc => ne_nil_of_not_isEmpty hc)
  obtain ⟨res4, hb4⟩ := maybeBridge_ok res3.2 (fun _ => hPRT)
    (fun hc => ne_nil_of_not_isEmpty hc)
  obtain ⟨res5, hb5⟩ := maybeBridge_ok res4.2 (fun _ => hMOZ) (fun _ => hZAF)
  obtain ⟨res6, hb6⟩ := maybeBridge_ok res5.2 (fun _ => hLSO) (fun _ => hZAF)
  refine ⟨(res1.1 ++ res2.1 ++ res3.1 ++ res4.1 ++ res5.1 ++ res6.1, res6.2), ?_⟩
  unfold bridges
  rw [hb1]
  dsimp only []
  rw [hb2]
  dsimp only []
  rw [hb3]
  dsimp only []
  rw [hb4]
  dsimp only []
  rw [hb5]
  dsimp only []
  rw [hb6]

/-- A run succeeds whenever every adjusted count is at least 2. -/
lemma generate_ok_of (d : Document) (now : String) (r : List Nat)
    (hall : ∀ p ∈ adjustedConfig d.nodes.length, 2 ≤ p.2) :
    ∃ out, generate d now r = .ok out := by
  have hshape := genNodesAux_shape (adjustedConfig d.nodes.length) 0
  have hcn2 : ∀ p ∈ (genNodes (adjustedConfig d.nodes.length)).2, 2 ≤ p.2.length := by
    intro p hp
    have hm : (p.1, p.2.length) ∈ (genNodesAux (adjustedConfig d.nodes.length) 0).2.map
        (fun p => (p.1, p.2.length)) := List.mem_map_of_mem _ hp
    rw [hshape] at hm
    obtain ⟨q, hq, hqe⟩ := List.mem_map.mp hm
    rw [Prod.mk.injEq] at hqe
    have := hall q hq
    omega
  have hne : ∀ p ∈ (genNodes (adjustedConfig d.nodes.length)).2, p.2 ≠ [] := by
    intro p hp hnil
    have := hcn2 p hp
    rw [hnil] at this
    simp at this
  have hkeys : (genNodes (adjustedConfig d.nodes.length)).2.map Prod.fst
      = ["ZAF", "LSO", "MOZ", "PRT", "FRA"] := by
    show (genNodesAux (adjustedConfig d.nodes.length) 0).2.map Prod.fst = _
    rw [genNodesAux_keys, adjustedConfig_keys]
  have hlook : ∀ c ∈ (["ZAF", "LSO", "MOZ", "PRT", "FRA"] : List String),
      lookupCN (genNodes (adjustedConfig d.nodes.length)).2 c ≠ [] := by
    intro c hc
    have hmem : c ∈ (genNodes (adjustedConfig d.nodes.length)).2.map Prod.fst := by
      rw [hkeys]
      exact hc
    obtain ⟨p, hp, hpc, hl⟩ := lookupCN_found hmem
    rw [hl]
    intro hnil
    have := hcn2 p hp
    rw [hnil] at this
    simp at this
  obtain ⟨ri, hri⟩ := intraStep_ok (genNodes (adjustedConfig d.nodes.length)).2 hne
    ⟨resetNew (interface_counters d.nodes d.links)
      (genNodes (adjustedConfig d.nodes.length)).1, r⟩
  obtain ⟨rr, hrr⟩ := interRing_ok_of_all hcn2 ri.2
  obtain ⟨rb, hrb⟩ := bridges_ok d.nodes (genNodes (adjustedConfig d.nodes.length)).2 rr.2
    (hlook "ZAF" (by simp)) (hlook "PRT" (by simp)) (hlook "FRA" (by simp))
    (hlook "MOZ" (by simp)) (hlook "LSO" (by simp))
  refine ⟨writeDoc d now (genNodes (adjustedConfig d.nodes.length)).1
    (ri.1 ++ rr.1 ++ rb.1), ?_⟩
  unfold generate
  dsimp only []
  rw [hri]
  dsimp only []
  rw [hrr]
  dsimp only []
  rw [hrb]

/-- An empty input document for concrete runs. -/
def docEmpty : Document := ⟨[], [], ⟨0, 0, "", ""⟩⟩

/-- Witness for C8: a successful concrete run on the empty document
satisfies the count equations. -/
theorem c8_written_counts_witness :
    ∃ out, generate docEmpty "" [] = .ok out
      ∧ ((out.nodes.length : Int)
          = (docEmpty.nodes.length : Int) + sumCounts (adjustedConfig docEmpty.nodes.length)
        ∧ out.metadata.node_count = out.nodes.length
        ∧ out.metadata.edge_count = out.links.length) := by
  obtain ⟨out, hout⟩ := generate_ok_of docEmpty "" [] (by
    rw [adjustedConfig_eq]
    intro p hp
    simp only [List.mem_cons, List.not_mem_nil, or_false] at hp
    rcases hp with rfl | rfl | rfl | rfl | rfl <;> norm_num [docEmpty])
  exact ⟨out, hout, c8_written_counts docEmpty "" [] out hout⟩
